import Mathlib

/-!
Verification of the e-write-buffer crate: a fixed-capacity, stack-allocated
byte buffer that accepts incremental text writes through the fmt Write
interface and exposes the written region as validated string data.

The Rust struct WriteBuffer<const N: usize> holds an array [u8; N] and a
cursor marking the end of the valid region. We model bytes as Nat, the
array as a list (whose length is N in all reachable states), and the
mutation of &mut self by returning the new state next to the fmt::Result.
-/

namespace EWriteBuffer

/-- Model of the Rust struct WriteBuffer<const N: usize>: fixed backing
storage of N bytes plus a cursor into it. -/
structure WriteBuffer (N : Nat) where
  buffer : List Nat
  cursor : Nat
deriving Repr, DecidableEq

/-- Rust WriteBuffer::new: storage [0u8; N], cursor 0. -/
def WriteBuffer.new (N : Nat) : WriteBuffer N :=
  { buffer := List.replicate N 0, cursor := 0 }

/-- Rust as_slice: the already written bytes, buffer[..cursor]. -/
def WriteBuffer.as_slice {N : Nat} (b : WriteBuffer N) : List Nat :=
  b.buffer.take b.cursor

/-- Rust reset: sets the internal cursor back to the start; it does not
overwrite any data in memory. -/
def WriteBuffer.reset {N : Nat} (b : WriteBuffer N) : WriteBuffer N :=
  { b with cursor := 0 }

/-- Rust as_str: from_utf8_unchecked over as_slice, which is the identity
on the underlying bytes, so the returned string is exactly those bytes. -/
def WriteBuffer.as_str {N : Nat} (b : WriteBuffer N) : List Nat :=
  b.as_slice

/-- Rust len: how many bytes have already been written. -/
def WriteBuffer.len {N : Nat} (b : WriteBuffer N) : Nat :=
  b.cursor

/-- Rust is_empty: true if zero bytes are written. -/
def WriteBuffer.is_empty {N : Nat} (b : WriteBuffer N) : Bool :=
  b.len == 0

/-- Rust remaining: how many bytes remain for writing, N - len. -/
def WriteBuffer.remaining {N : Nat} (b : WriteBuffer N) : Nat :=
  N - b.len

/-- Rust is_full: true if the buffer is full. -/
def WriteBuffer.is_full {N : Nat} (b : WriteBuffer N) : Bool :=
  b.remaining == 0

/-- Rust core::fmt::Error, the single error value of the fmt Write trait. -/
inductive FmtError
  | Error
deriving Repr, DecidableEq

/-- Rust Write::write_str for WriteBuffer<N>. The copy_from_slice into
buffer[cursor..new_cursor] is modelled as the list splice
take cursor ++ bytes ++ drop new_cursor; on overflow the state is
returned untouched, as the Rust method returns before any mutation. -/
def WriteBuffer.write_str {N : Nat} (b : WriteBuffer N) (s : List Nat) :
    Except FmtError Unit × WriteBuffer N :=
  let bytes := s
  let new_cursor := b.cursor + bytes.length
  if new_cursor > N then
    (Except.error FmtError.Error, b)
  else
    (Except.ok (),
      { buffer := b.buffer.take b.cursor ++ bytes ++ b.buffer.drop new_cursor,
        cursor := new_cursor })

/-- A Unicode scalar value: below 0x110000 and not a surrogate. -/
def IsScalar (c : Nat) : Prop :=
  c < 1114112 ∧ ¬ (55296 ≤ c ∧ c ≤ 57343)

instance (c : Nat) : Decidable (IsScalar c) :=
  inferInstanceAs (Decidable (c < 1114112 ∧ ¬ (55296 ≤ c ∧ c ≤ 57343)))

/-- Standard UTF-8 encoding of one Unicode scalar value. -/
def utf8EncodeChar (c : Nat) : List Nat :=
  if c < 128 then [c]
  else if c < 2048 then [192 + c / 64, 128 + c % 64]
  else if c < 65536 then [224 + c / 4096, 128 + c / 64 % 64, 128 + c % 64]
  else [240 + c / 262144, 128 + c / 4096 % 64, 128 + c / 64 % 64, 128 + c % 64]

/-- UTF-8 encoding of a sequence of Unicode scalar values. -/
def utf8Encode (cs : List Nat) : List Nat :=
  (cs.map utf8EncodeChar).flatten

/-- A byte list is valid UTF-8 text iff it is the UTF-8 encoding of some
sequence of Unicode scalar values. In Rust this is exactly the guarantee
carried by the type str, which every argument of write_str has. -/
def IsValidUtf8 (bs : List Nat) : Prop :=
  ∃ cs : List Nat, (∀ c ∈ cs, IsScalar c) ∧ utf8Encode cs = bs

/-- Sequential appends of a list of fragments, stopping at the first
failure, exactly as the core fmt write machinery feeds the pieces of a
format string one write_str call at a time. -/
def writeAll {N : Nat} :
    WriteBuffer N → List (List Nat) → Except FmtError Unit × WriteBuffer N
  | b, [] => (Except.ok (), b)
  | b, s :: rest =>
    match b.write_str s with
    | (Except.ok _, b') => writeAll b' rest
    | (Except.error e, b') => (Except.error e, b')

/-- Total byte length of a list of fragments. -/
def totalLen (frags : List (List Nat)) : Nat :=
  (frags.map List.length).sum

/-- States reachable from a fresh buffer through the public API: write_str
with a fragment that is valid UTF-8 (its Rust type is str) and reset. A
failed write_str hands the state back untouched, so it adds no states. -/
inductive Reachable (N : Nat) : WriteBuffer N → Prop
  | new : Reachable N (WriteBuffer.new N)
  | write {b : WriteBuffer N} {s : List Nat} :
      Reachable N b → IsValidUtf8 s → Reachable N (b.write_str s).2
  | reset {b : WriteBuffer N} : Reachable N b → Reachable N b.reset

/-! Helper lemmas about write_str, writeAll, and UTF-8 validity. -/

/-- On overflow, write_str returns the Overflow error with the state
returned exactly as it came in. -/
theorem write_str_overflow {N : Nat} (b : WriteBuffer N) (s : List Nat)
    (h : N < b.cursor + s.length) :
    b.write_str s = (Except.error FmtError.Error, b) := by
  simp [WriteBuffer.write_str, h]

/-- When the fragment fits, write_str succeeds and splices it in at the
cursor. -/
theorem write_str_fits {N : Nat} (b : WriteBuffer N) (s : List Nat)
    (h : b.cursor + s.length ≤ N) :
    b.write_str s =
      (Except.ok (),
        { buffer := b.buffer.take b.cursor ++ s ++ b.buffer.drop (b.cursor + s.length),
          cursor := b.cursor + s.length }) := by
  simp [WriteBuffer.write_str, Nat.not_lt.mpr h]

/-- A successful write preserves the storage length N. -/
theorem write_str_buffer_length {N : Nat} (b : WriteBuffer N) (s : List Nat)
    (hwf : b.buffer.length = N) (h : b.cursor + s.length ≤ N) :
    ((b.write_str s).2).buffer.length = N := by
  rw [write_str_fits b s h]
  simp [List.length_take, List.length_drop, hwf]
  omega

/-- A successful write extends the valid region by exactly the fragment. -/
theorem write_str_as_slice {N : Nat} (b : WriteBuffer N) (s : List Nat)
    (hcur : b.cursor ≤ b.buffer.length) (h : b.cursor + s.length ≤ N) :
    ((b.write_str s).2).as_slice = b.as_slice ++ s := by
  rw [write_str_fits b s h]
  simp only [WriteBuffer.as_slice]
  apply List.take_left'
  simp [List.length_take]
  omega

/-- writeAll on the empty fragment list does nothing. -/
theorem writeAll_nil {N : Nat} (b : WriteBuffer N) :
    writeAll b [] = (Except.ok (), b) := rfl

/-- writeAll steps through a successful head write. -/
theorem writeAll_cons_ok {N : Nat} (b : WriteBuffer N) (s : List Nat)
    (rest : List (List Nat)) (h : (b.write_str s).1 = Except.ok ()) :
    writeAll b (s :: rest) = writeAll (b.write_str s).2 rest := by
  rcases hw : b.write_str s with ⟨r, b'⟩
  rw [hw] at h
  simp at h
  subst h
  simp [writeAll, hw]

/-- When all fragments fit, writeAll succeeds, appends their concatenation
to the valid region, advances the cursor by their total length, and keeps
the storage length at N. -/
theorem writeAll_ok {N : Nat} (frags : List (List Nat)) :
    ∀ b : WriteBuffer N, b.buffer.length = N → b.cursor + totalLen frags ≤ N →
      (writeAll b frags).1 = Except.ok () ∧
        (writeAll b frags).2.as_slice = b.as_slice ++ frags.flatten ∧
        (writeAll b frags).2.cursor = b.cursor + totalLen frags ∧
        (writeAll b frags).2.buffer.length = N := by
  induction frags with
  | nil =>
    intro b hwf h
    simp [writeAll_nil, totalLen, hwf]
  | cons s rest ih =>
    intro b hwf h
    have htot : totalLen (s :: rest) = s.length + totalLen rest := by
      simp [totalLen]
    have hs : b.cursor + s.length ≤ N := by omega
    have hfit := write_str_fits b s hs
    have hok1 : (b.write_str s).1 = Except.ok () := by rw [hfit]
    have hcursor2 : ((b.write_str s).2).cursor = b.cursor + s.length := by rw [hfit]
    have hlen2 := write_str_buffer_length b s hwf hs
    have hslice2 := write_str_as_slice b s (by omega) hs
    obtain ⟨h1, h2, h3, h4⟩ := ih (b.write_str s).2 hlen2 (by omega)
    rw [writeAll_cons_ok b s rest hok1]
    refine ⟨h1, ?_, ?_, h4⟩
    · rw [h2, hslice2, List.append_assoc]
      simp
    · omega

/-- UTF-8 encoding distributes over concatenation of scalar sequences. -/
theorem utf8Encode_append (cs ds : List Nat) :
    utf8Encode (cs ++ ds) = utf8Encode cs ++ utf8Encode ds := by
  simp [utf8Encode]

/-- The empty byte sequence is valid UTF-8. -/
theorem isValidUtf8_nil : IsValidUtf8 [] :=
  ⟨[], by simp, rfl⟩

/-- Concatenating two valid UTF-8 byte sequences gives a valid one. -/
theorem isValidUtf8_append {a b : List Nat} (ha : IsValidUtf8 a)
    (hb : IsValidUtf8 b) : IsValidUtf8 (a ++ b) := by
  obtain ⟨cs, hcs, hec⟩ := ha
  obtain ⟨ds, hds, hed⟩ := hb
  refine ⟨cs ++ ds, ?_, ?_⟩
  · intro c hc
    rcases List.mem_append.mp hc with h | h
    · exact hcs c h
    · exact hds c h
  · rw [utf8Encode_append, hec, hed]

/-- Invariant of all reachable states: the cursor stays within capacity,
the storage keeps its fixed length N, and the valid region is valid UTF-8
as a whole. -/
theorem reachable_invariant {N : Nat} {b : WriteBuffer N} (h : Reachable N b) :
    b.cursor ≤ N ∧ b.buffer.length = N ∧ IsValidUtf8 b.as_slice := by
  induction h with
  | new =>
    refine ⟨Nat.zero_le _, by simp [WriteBuffer.new], ?_⟩
    have : (WriteBuffer.new N).as_slice = [] := by
      simp [WriteBuffer.new, WriteBuffer.as_slice]
    rw [this]
    exact isValidUtf8_nil
  | @write b s hb hv ih =>
    obtain ⟨hc, hl, hu⟩ := ih
    by_cases hfit : b.cursor + s.length ≤ N
    · refine ⟨?_, write_str_buffer_length b s hl hfit, ?_⟩
      · rw [write_str_fits b s hfit]
        exact hfit
      · rw [write_str_as_slice b s (by omega) hfit]
        exact isValidUtf8_append hu hv
    · rw [write_str_overflow b s (by omega)]
      exact ⟨hc, hl, hu⟩
  | @reset b hb ih =>
    obtain ⟨hc, hl, hu⟩ := ih
    refine ⟨Nat.zero_le _, hl, ?_⟩
    have : b.reset.as_slice = [] := by
      simp [WriteBuffer.reset, WriteBuffer.as_slice]
    rw [this]
    exact isValidUtf8_nil

/-! Claim theorems. -/

/-- C1: for every buffer state with cursor within capacity and every
fragment s, if cursor + len(s) > N then write_str returns the Overflow
error (fmt::Error) and the buffer is unchanged: same cursor, no storage
byte modified (all-or-nothing, no partial copy). -/
theorem claim_C1_overflow_all_or_nothing {N : Nat} (b : WriteBuffer N)
    (s : List Nat) (hc : b.cursor ≤ N) (hov : b.cursor + s.length > N) :
    (b.write_str s).1 = Except.error FmtError.Error ∧
      (b.write_str s).2.cursor = b.cursor ∧
      (b.write_str s).2.buffer = b.buffer := by
  rw [write_str_overflow b s hov]
  exact ⟨rfl, rfl, rfl⟩

/-- C1 witness: capacity 2, one byte already written, two-byte fragment. -/
theorem claim_C1_overflow_all_or_nothing_witness :
    ((⟨[7, 8], 1⟩ : WriteBuffer 2).write_str [5, 6]).1 =
        Except.error FmtError.Error ∧
      ((⟨[7, 8], 1⟩ : WriteBuffer 2).write_str [5, 6]).2.cursor = 1 ∧
      ((⟨[7, 8], 1⟩ : WriteBuffer 2).write_str [5, 6]).2.buffer = [7, 8] :=
  claim_C1_overflow_all_or_nothing ⟨[7, 8], 1⟩ [5, 6] (by decide) (by decide)

/-- C2: for every capacity N and every finite fragment sequence of total
length at most N, appending them sequentially to a fresh buffer succeeds
on every call and as_str returns exactly their concatenation in call
order with no separators. -/
theorem claim_C2_sequential_concat {N : Nat} (frags : List (List Nat))
    (h : totalLen frags ≤ N) :
    (writeAll (WriteBuffer.new N) frags).1 = Except.ok () ∧
      (writeAll (WriteBuffer.new N) frags).2.as_str = frags.flatten := by
  obtain ⟨h1, h2, -, -⟩ :=
    writeAll_ok frags (WriteBuffer.new N) (by simp [WriteBuffer.new])
      (by simpa [WriteBuffer.new] using h)
  refine ⟨h1, ?_⟩
  rw [WriteBuffer.as_str, h2]
  simp [WriteBuffer.new, WriteBuffer.as_slice]

/-- C2 witness: capacity 5 and the fragments "hi" then "!". -/
theorem claim_C2_sequential_concat_witness :
    (writeAll (WriteBuffer.new 5) [[104, 105], [33]]).1 = Except.ok () ∧
      (writeAll (WriteBuffer.new 5) [[104, 105], [33]]).2.as_str =
        [[104, 105], [33]].flatten :=
  claim_C2_sequential_concat [[104, 105], [33]] (by decide)

/-- C3: in every state reachable from a fresh buffer by write_str and
reset, the byte range [0, cursor) of storage, taken as a whole, is valid
UTF-8 text, which justifies the unchecked reinterpretation in as_str. -/
theorem claim_C3_valid_region_utf8 {N : Nat} {b : WriteBuffer N}
    (h : Reachable N b) : IsValidUtf8 b.as_slice :=
  (reachable_invariant h).2.2

/-- C3 witness: the state reached by writing "hi" into a fresh buffer of
capacity 4. -/
theorem claim_C3_valid_region_utf8_witness :
    IsValidUtf8 (((WriteBuffer.new 4).write_str [104, 105]).2).as_slice :=
  claim_C3_valid_region_utf8
    (Reachable.write Reachable.new ⟨[104, 105], by decide, by decide⟩)

/-- C5: after reset, every query observes the same values as on a freshly
constructed buffer of the same capacity: len 0, is_empty true, remaining
N, and as_str empty. -/
theorem claim_C5_reset_like_new {N : Nat} (b : WriteBuffer N) :
    b.reset.len = (WriteBuffer.new N).len ∧ b.reset.len = 0 ∧
      b.reset.is_empty = (WriteBuffer.new N).is_empty ∧
      b.reset.is_empty = true ∧
      b.reset.remaining = (WriteBuffer.new N).remaining ∧
      b.reset.remaining = N ∧
      b.reset.as_str = (WriteBuffer.new N).as_str ∧
      b.reset.as_str = [] := by
  simp [WriteBuffer.reset, WriteBuffer.new, WriteBuffer.len,
    WriteBuffer.is_empty, WriteBuffer.remaining, WriteBuffer.as_str,
    WriteBuffer.as_slice]

/-- C6: round-trip: writing a valid UTF-8 fragment into a fresh buffer of
capacity at least its length succeeds, and as_str then returns exactly
that fragment, byte for byte. -/
theorem claim_C6_roundtrip {N : Nat} (s : List Nat) (hv : IsValidUtf8 s)
    (h : s.length ≤ N) :
    ((WriteBuffer.new N).write_str s).1 = Except.ok () ∧
      ((WriteBuffer.new N).write_str s).2.as_str = s := by
  have hfit : (WriteBuffer.new N).cursor + s.length ≤ N := by
    simpa [WriteBuffer.new] using h
  constructor
  · rw [write_str_fits _ s hfit]
  · rw [WriteBuffer.as_str,
      write_str_as_slice (WriteBuffer.new N) s (by simp [WriteBuffer.new]) hfit]
    simp [WriteBuffer.new, WriteBuffer.as_slice]

/-- C6 witness: the fragment "hi" and capacity 3. -/
theorem claim_C6_roundtrip_witness :
    ((WriteBuffer.new 3).write_str [104, 105]).1 = Except.ok () ∧
      ((WriteBuffer.new 3).write_str [104, 105]).2.as_str = [104, 105] :=
  claim_C6_roundtrip [104, 105] ⟨[104, 105], by decide, by decide⟩ (by decide)

/-- C7: for every buffer state (so in particular every reachable one),
is_full returns true exactly when remaining returns 0. -/
theorem claim_C7_full_iff_remaining_zero {N : Nat} (b : WriteBuffer N) :
    b.is_full = true ↔ b.remaining = 0 := by
  simp [WriteBuffer.is_full]

/-- C8: frame of a successful append: when cursor + len(s) <= N,
write_str succeeds, moves the cursor to cursor + len(s), writes s exactly
at positions cursor..cursor+len(s), and every storage position below the
old cursor and at or beyond the new cursor keeps its prior value. -/
theorem claim_C8_write_frame {N : Nat} (b : WriteBuffer N) (s : List Nat)
    (hwf : b.buffer.length = N) (h : b.cursor + s.length ≤ N) :
    (b.write_str s).1 = Except.ok () ∧
      (b.write_str s).2.cursor = b.cursor + s.length ∧
      (∀ j, j < s.length →
        ((b.write_str s).2).buffer[b.cursor + j]? = s[j]?) ∧
      (∀ i, i < b.cursor →
        ((b.write_str s).2).buffer[i]? = b.buffer[i]?) ∧
      (∀ i, b.cursor + s.length ≤ i →
        ((b.write_str s).2).buffer[i]? = b.buffer[i]?) := by
  have hfit := write_str_fits b s h
  have hA : (b.buffer.take b.cursor).length = b.cursor := by
    simp [List.length_take]
    omega
  refine ⟨by rw [hfit], by rw [hfit], ?_, ?_, ?_⟩
  · intro j hj
    rw [hfit]
    show (b.buffer.take b.cursor ++ s ++
        b.buffer.drop (b.cursor + s.length))[b.cursor + j]? = s[j]?
    rw [List.append_assoc, List.getElem?_append_right (by omega), hA,
      Nat.add_sub_cancel_left, List.getElem?_append_left hj]
  · intro i hi
    rw [hfit]
    show (b.buffer.take b.cursor ++ s ++
        b.buffer.drop (b.cursor + s.length))[i]? = b.buffer[i]?
    rw [List.append_assoc, List.getElem?_append_left (by omega),
      List.getElem?_take_of_lt hi]
  · intro i hi
    rw [hfit]
    show (b.buffer.take b.cursor ++ s ++
        b.buffer.drop (b.cursor + s.length))[i]? = b.buffer[i]?
    have hAS : (b.buffer.take b.cursor ++ s).length = b.cursor + s.length := by
      simp [hA]
    rw [List.getElem?_append_right (by omega), hAS, List.getElem?_drop]
    congr 1
    omega

/-- C8 witness: a capacity-4 buffer holding one byte, appending two. -/
theorem claim_C8_write_frame_witness :
    ((⟨[1, 2, 3, 4], 1⟩ : WriteBuffer 4).write_str [9, 9]).1 =
        Except.ok () ∧
      ((⟨[1, 2, 3, 4], 1⟩ : WriteBuffer 4).write_str [9, 9]).2.cursor =
        1 + ([9, 9] : List Nat).length ∧
      (∀ j, j < ([9, 9] : List Nat).length →
        (((⟨[1, 2, 3, 4], 1⟩ : WriteBuffer 4).write_str
          [9, 9]).2).buffer[1 + j]? = ([9, 9] : List Nat)[j]?) ∧
      (∀ i, i < 1 →
        (((⟨[1, 2, 3, 4], 1⟩ : WriteBuffer 4).write_str
          [9, 9]).2).buffer[i]? = ([1, 2, 3, 4] : List Nat)[i]?) ∧
      (∀ i, 1 + ([9, 9] : List Nat).length ≤ i →
        (((⟨[1, 2, 3, 4], 1⟩ : WriteBuffer 4).write_str
          [9, 9]).2).buffer[i]? = ([1, 2, 3, 4] : List Nat)[i]?) :=
  claim_C8_write_frame ⟨[1, 2, 3, 4], 1⟩ [9, 9] (by decide) (by decide)

/-- C9: reset sets the cursor to 0 and leaves every byte of storage
unchanged; it does not erase or re-initialize the backing array. -/
theorem claim_C9_reset_frame {N : Nat} (b : WriteBuffer N) :
    b.reset.cursor = 0 ∧ b.reset.buffer = b.buffer :=
  ⟨rfl, rfl⟩

/-- C10: in every reachable state cursor <= N and the storage length is
exactly N, so N - cursor cannot underflow and every slice the code takes
(buffer[..cursor], buffer[cursor..new_cursor] with new_cursor <= N) lies
within the array bounds. -/
theorem claim_C10_bounds {N : Nat} {b : WriteBuffer N} (h : Reachable N b) :
    b.cursor ≤ N ∧ b.buffer.length = N ∧ b.cursor ≤ b.buffer.length := by
  obtain ⟨h1, h2, -⟩ := reachable_invariant h
  exact ⟨h1, h2, by omega⟩

/-- C10 witness: the state after writing "A" into a fresh buffer of
capacity 2. -/
theorem claim_C10_bounds_witness :
    (((WriteBuffer.new 2).write_str [65]).2).cursor ≤ 2 ∧
      (((WriteBuffer.new 2).write_str [65]).2).buffer.length = 2 ∧
      (((WriteBuffer.new 2).write_str [65]).2).cursor ≤
        (((WriteBuffer.new 2).write_str [65]).2).buffer.length :=
  claim_C10_bounds (Reachable.write Reachable.new ⟨[65], by decide, by decide⟩)

/-- The write_str fragments produced by the write! call of the test
test_write_wrapper at lib.rs line 148. The format string has two literal
pieces around the interpolated value x = 20, so the fmt machinery issues
three write_str calls: the bytes of "Longer than ", of "20", and of
" characters sentence". The full rendered text is 34 bytes. -/
def longSentenceFrags : List (List Nat) :=
  [[76, 111, 110, 103, 101, 114, 32, 116, 104, 97, 110, 32],
   [50, 48],
   [32, 99, 104, 97, 114, 97, 99, 116, 101, 114, 115, 32, 115, 101, 110,
    116, 101, 110, 99, 101]]

/-- C4 counterexample: on capacity 20 the write of the test sentence does
fail with Overflow, but the buffer does not remain empty: the first two
fragments fit and are written before the third one overflows, so the
buffer holds 14 bytes afterwards; the full rendered text is 34 bytes, not
36. -/
theorem claim_C4_counterexample :
    (writeAll (WriteBuffer.new 20) longSentenceFrags).1 =
        Except.error FmtError.Error ∧
      ¬ (writeAll (WriteBuffer.new 20) longSentenceFrags).2.len = 0 ∧
      totalLen longSentenceFrags = 34 :=
  ⟨rfl, by decide, rfl⟩

/-- C4 amended: on a fresh buffer of capacity 20, the write! of the test
(rendered text 34 bytes, delivered as three fragments) fails with
Overflow, and afterwards the buffer holds exactly the bytes of
"Longer than 20" — the leading fragments that fit — so its length is 14
and it is not empty. -/
theorem claim_C4_overflow_partial_content :
    (writeAll (WriteBuffer.new 20) longSentenceFrags).1 =
        Except.error FmtError.Error ∧
      (writeAll (WriteBuffer.new 20) longSentenceFrags).2.as_str =
        [76, 111, 110, 103, 101, 114, 32, 116, 104, 97, 110, 32, 50, 48] ∧
      (writeAll (WriteBuffer.new 20) longSentenceFrags).2.len = 14 :=
  ⟨rfl, by decide, rfl⟩

end EWriteBuffer
